import Mathlib

/-!
Verification of the record model and query engine of the health-api-server
repository (`app.py`, `check_sheet.py`).

Strings of the Python source are modelled as `List Char`; Python dicts are
modelled as insertion-ordered association lists where inserting an existing
key overwrites its value in place (CPython dict semantics).  Fallible Python
code (raised exceptions) is modelled with `Except` / dedicated result types.
-/

namespace HealthApi

/-- A Python string, modelled as its list of characters. -/
abbrev Str := List Char

/-- One spreadsheet row: a list of cell strings. -/
abbrev Row := List Str

/-- A raw grid as returned by `ws.get_all_values()`. -/
abbrev Grid := List Row

/-- A Python dict of strings: insertion-ordered association list. -/
abbrev Record := List (Str × Str)

/-- A calendar date `(year, month, day)` as produced by
`datetime.strptime(..., "%Y/%m/%d")` (time-of-day is always zero and dropped). -/
abbrev Date := Nat × Nat × Nat

/-- Python `str` whitespace for `strip()` / `split()`:
space, tab, linefeed, carriage return, vertical tab, form feed. -/
def isSpace (c : Char) : Bool :=
  c == ' ' || c == '\t' || c == '\n' || c == '\r' || c == '\x0b' || c == '\x0c'

/-- Python `s.strip()`: remove leading and trailing whitespace. -/
def pyStrip (s : Str) : Str :=
  ((s.dropWhile isSpace).reverse.dropWhile isSpace).reverse

/-- Worker for `pySplit`: `acc` is the current word, reversed. -/
def pySplitGo : Str → Str → List Str
  | acc, [] => if acc.isEmpty then [] else [acc.reverse]
  | acc, c :: rest =>
    if isSpace c then
      if acc.isEmpty then pySplitGo [] rest else acc.reverse :: pySplitGo [] rest
    else pySplitGo (c :: acc) rest

/-- Python `s.split()` with no argument: split on runs of whitespace,
discarding empty words. -/
def pySplit (s : Str) : List Str := pySplitGo [] s

/-- Python `s.startswith(p)` (`pyStarts s p`). -/
def pyStarts : Str → Str → Bool
  | _, [] => true
  | [], _ :: _ => false
  | c :: s, p :: ps => c == p && pyStarts s ps

/-- Whether `pat` occurs as a contiguous substring of `s` (`pat in s`). -/
def hasSub (pat : Str) : Str → Bool
  | [] => pyStarts [] pat
  | c :: t => pyStarts (c :: t) pat || hasSub pat t

/-- Split a string on a single separator character, keeping empty pieces
(like Python `s.split(sep)` for a one-character `sep`). -/
def splitOn1 (sep : Char) : Str → List Str
  | [] => [[]]
  | c :: rest =>
    if c == sep then [] :: splitOn1 sep rest
    else
      match splitOn1 sep rest with
      | [] => [[c]]
      | w :: ws => (c :: w) :: ws

/-- Numeric value of a digit string. -/
def digitsVal (s : Str) : Nat := s.foldl (fun a c => a * 10 + (c.toNat - 48)) 0

/-- Non-empty and all characters are ASCII digits. -/
def allDigits (s : Str) : Bool := !s.isEmpty && s.all Char.isDigit

/-- Gregorian leap year, as used by `datetime`. -/
def isLeap (y : Nat) : Bool := (y % 4 == 0 && y % 100 != 0) || y % 400 == 0

/-- Number of days of month `m` in year `y`, as validated by `datetime`. -/
def daysInMonth (y m : Nat) : Nat :=
  if m == 2 then (if isLeap y then 29 else 28)
  else if m == 4 || m == 6 || m == 9 || m == 11 then 30 else 31

/-- Validation of the year/month/day pieces, as `datetime.strptime` does:
a 4-digit year (at least 0001), a 1-2 digit month 1-12, a 1-2 digit day
valid for the month. -/
def parseYMDparts (ys ms ds : Str) : Option Date :=
  if allDigits ys && ys.length == 4 && decide (1 ≤ digitsVal ys) &&
     allDigits ms && decide (ms.length ≤ 2) && decide (1 ≤ digitsVal ms) &&
     decide (digitsVal ms ≤ 12) &&
     allDigits ds && decide (ds.length ≤ 2) && decide (1 ≤ digitsVal ds) &&
     decide (digitsVal ds ≤ daysInMonth (digitsVal ys) (digitsVal ms))
  then some (digitsVal ys, digitsVal ms, digitsVal ds) else none

/-- `datetime.strptime(tok, "%Y<sep>%m<sep>%d")` (with `sep` either `/` or `-`),
returning `none` where Python raises `ValueError`.  The token must consist of
exactly three `sep`-separated pieces with no unconverted trailing data. -/
def parseYMDSep (sep : Char) (tok : Str) : Option Date :=
  match splitOn1 sep tok with
  | [ys, ms, ds] => parseYMDparts ys ms ds
  | _ => none

/-- `app.py` `parse_date` (inside `get_latest_from_health_tab`):
take the first whitespace-delimited token of the cell and parse it with
`datetime.strptime(date_part, "%Y/%m/%d")`.  `none` models the `ValueError`
that the caller catches.  (On an all-whitespace cell Python would raise
`IndexError`; callers only pass cells with non-blank `strip()`, and we model
that case as `none` as well.) -/
def parse_date (s : Str) : Option Date :=
  match pySplit s with
  | [] => none
  | tok :: _ => parseYMDSep '/' tok

/-- Order-embedding key for parsed dates.  `parseYMDSep` guarantees
`m ≤ 12 < 100` and `d ≤ 31 < 100`, so on parsed dates `dkey` ordering agrees
with Python `datetime` (lexicographic) ordering. -/
def dkey (d : Date) : Nat := (d.1 * 100 + d.2.1) * 100 + d.2.2

/-- The per-row test of `app.py`: `len(row) >= 1 and row[0].strip()`. -/
def rowFilter (row : Row) : Bool :=
  match row with
  | [] => false
  | c :: _ => !(pyStrip c).isEmpty

/-- `data_rows = [row for row in all_rows[2:] if len(row) >= 1 and row[0].strip()]`
(`app.py` lines 55, 103, 193). -/
def data_rows (all : Grid) : List Row := (all.drop 2).filter rowFilter

/-- `ws.row_values(2)`: the second sheet row, used as the header row. -/
def headersOf (all : Grid) : List Str := all.getD 1 []

/-- Python dict assignment `d[k] = v`: overwrite in place if `k` is already a
key (keeping its position), else append. -/
def dictInsert (d : Record) (k v : Str) : Record :=
  if d.any (fun p => decide (p.1 = k)) then
    d.map (fun p => if p.1 = k then (k, v) else p)
  else d ++ [(k, v)]

/-- The record-building loop of `app.py` (lines 82-86, 113-115, 202-203,
275-276, 285-286): `result[col_name] = row[idx] if idx < len(row) else ""`
for `idx, col_name in enumerate(headers)`. -/
def makeRecord (headers : List Str) (row : Row) : Record :=
  headers.enum.foldl (fun d p => dictInsert d p.2 (row.getD p.1 [])) []

/-- `check_sheet.py` line 38: `latest_dict = dict(zip(columns, latest))`. -/
def latest_dict (columns latest : Row) : Record :=
  (columns.zip latest).foldl (fun d p => dictInsert d p.1 p.2) []

/-- Python `d.get(k, dflt)`. -/
def dictGet (d : Record) (k dflt : Str) : Str :=
  match d.find? (fun p => decide (p.1 = k)) with
  | some p => p.2
  | none => dflt

/-- The `(row, parsed datetime)` pairs of `app.py` lines 66-73: rows whose
first cell parses under `%Y/%m/%d`, in order, paired with their date. -/
def valid_date_rows (rows : List Row) : List (Row × Date) :=
  rows.filterMap (fun row => (parse_date (row.headD [])).map (fun d => (row, d)))

/-- Python `max(xs, key=...)` folded over a non-empty list: the current
maximum is replaced only when a later element is strictly greater, so the
first maximal element wins. -/
def pyMaxBy (lt : α → α → Bool) : α → List α → α
  | b, [] => b
  | b, y :: ys => pyMaxBy lt (if lt b y then y else b) ys

/-- Key of a `(row, date)` pair. -/
def dkeyP (p : Row × Date) : Nat := dkey p.2

/-- Strict comparison used by `max(valid_date_rows, key=lambda x: x[1])`. -/
def rdLt (a b : Row × Date) : Bool := decide (dkeyP a < dkeyP b)

/-- `max` over a possibly-empty list of `(row, date)` pairs. -/
def latestValidPair (rows : List (Row × Date)) : Option (Row × Date) :=
  match rows with
  | [] => none
  | x :: xs => some (pyMaxBy rdLt x xs)

def healthEmptyMsg : Str := "体調管理タブにデータ行が見つかりませんでした。".toList

def healthNoDateMsg : Str :=
  "体調管理タブ内に有効な日付フォーマット（YYYY/MM/DD）の行が見つかりませんでした。".toList

def workEmptyMsg : Str := "業務記録タブにデータ行が見つかりませんでした。".toList

/-- `app.py` `get_latest_from_health_tab` (lines 41-86), after the grid has
been fetched: filter data rows, keep rows with a parsable `%Y/%m/%d` first
token, take the row with the maximal date via Python `max`, and build its
record from the second-row headers.  `.error` models the raised `ValueError`s. -/
def get_latest_from_health_tab (all : Grid) : Except Str Record :=
  if (data_rows all).isEmpty then .error healthEmptyMsg
  else
    match latestValidPair (valid_date_rows (data_rows all)) with
    | none => .error healthNoDateMsg
    | some p => .ok (makeRecord (headersOf all) p.1)

/-- `app.py` `get_latest_from_work_tab` (lines 89-117):
`latest_row = data_rows[-1]`, no date logic at all. -/
def get_latest_from_work_tab (all : Grid) : Except Str Record :=
  match (data_rows all).getLast? with
  | none => .error workEmptyMsg
  | some row => .ok (makeRecord (headersOf all) row)

/-- The fixed sample advice of `app.py` line 206. -/
def adviceFixed : Str := "前日と比べて大きな変化はありません。体調維持を心がけてください。".toList

def compareInsufficientMsg : Str := "最新行と比較対象行が見つかりません".toList

/-- Result of the `/healthdata/compare` route body. -/
inductive CmpOut where
  | badRequest (msg : Str)
  | ok (today yesterday : Record) (advice : Str)
deriving DecidableEq

def CmpOut.adviceOf : CmpOut → Str
  | .ok _ _ a => a
  | .badRequest _ => []

def CmpOut.isOkC : CmpOut → Bool
  | .ok _ _ _ => true
  | .badRequest _ => false

/-- `app.py` `healthdata_compare` (lines 188-212), after the grid fetch:
`today = data_rows[-1]`, `yesterday = data_rows[-2]`, and the advice is the
fixed sample string - no field is inspected. -/
def healthdata_compare (all : Grid) : CmpOut :=
  match (data_rows all).reverse with
  | t :: y :: _ =>
    .ok (makeRecord (headersOf all) t) (makeRecord (headersOf all) y) adviceFixed
  | _ => .badRequest compareInsufficientMsg

/-- `[row for row in rows if row[0].startswith(ds)]` (`app.py` lines 270, 281):
Python raises `IndexError` on a fully empty row because `row[0]` has no
length guard there; `.error` models that. -/
def filterStartsWith (ds : Str) : List Row → Except Str (List Row)
  | [] => .ok []
  | [] :: _ => .error ("IndexError: list index out of range".toList)
  | (c :: cs) :: rest =>
    match filterStartsWith ds rest with
    | .error e => .error e
    | .ok rs => .ok (if pyStarts c ds then (c :: cs) :: rs else rs)

/-- Result of the `/daily/summary` route body. -/
inductive DSOut where
  | badRequest (msg : Str)
  | notFound (msg : Str)
  | serverError (msg : Str)
  | ok (date : Str) (health work : Record) (comment : Str)
deriving DecidableEq

def DSOut.isOkD : DSOut → Bool
  | .ok _ _ _ _ => true
  | _ => false

def DSOut.workOf : DSOut → Record
  | .ok _ _ w _ => w
  | _ => []

def DSOut.commentOf : DSOut → Str
  | .ok _ _ _ c => c
  | _ => []

def dsDateNeededMsg : Str := "date が必要です (YYYY-MM-DD)".toList

def dsDateFormatMsg : Str := "date は YYYY-MM-DD 形式で指定してください".toList

def dsNotFoundMsg (ds : Str) : Str := ds ++ " の体調データが見つかりません".toList

def sleepKey : Str := "何時間寝た？".toList

def moodKey : Str := "今日の気分は？".toList

def amKey : Str := "10時以降、何した？".toList

def pmKey : Str := "午後何した？".toList

/-- The comment built at `app.py` lines 291-297: the health part is always
present (with `-` for missing health fields); the work part is appended only
when the work dict is non-empty. -/
def dsComment (ds : Str) (h w : Record) : Str :=
  ds ++ " のまとめ: 睡眠 ".toList ++ dictGet h sleepKey ("-".toList)
     ++ "、気分 ".toList ++ dictGet h moodKey ("-".toList) ++ "。".toList
  ++ (if w.isEmpty then [] else
      " 午前: ".toList ++ dictGet w amKey ("-".toList)
        ++ "、午後: ".toList ++ dictGet w pmKey ("-".toList) ++ "。".toList)

/-- `app.py` `daily_summary` (lines 221-304) after fetching both grids:
validate the stripped `date` parameter against `%Y-%m-%d`, filter the health
rows whose first cell `startswith(date_str)` (404 when none), take the last
match, do the same on the work tab treating no match as an empty record, and
assemble the comment.  The sheet-identifier handling and the fetch itself are
external collaborators and take no part in this logic. -/
def daily_summary (healthAll workAll : Grid) (dateArg : Str) : DSOut :=
  if (pyStrip dateArg).isEmpty then .badRequest dsDateNeededMsg
  else
    match parseYMDSep '-' (pyStrip dateArg) with
    | none => .badRequest dsDateFormatMsg
    | some _ =>
      match filterStartsWith (pyStrip dateArg) (healthAll.drop 2) with
      | .error e => .serverError e
      | .ok hrows =>
        match hrows.getLast? with
        | none => .notFound (dsNotFoundMsg (pyStrip dateArg))
        | some lastH =>
          match filterStartsWith (pyStrip dateArg) (workAll.drop 2) with
          | .error e => .serverError e
          | .ok wrows =>
            let hrec := makeRecord (headersOf healthAll) lastH
            let wrec := match wrows.getLast? with
              | none => []
              | some lastW => makeRecord (headersOf workAll) lastW
            .ok (pyStrip dateArg) hrec wrec (dsComment (pyStrip dateArg) hrec wrec)

/-- Character class `[a-zA-Z0-9\-_]` of the `extract_id` regex. -/
def classChar (c : Char) : Bool := c.isAlpha || c.isDigit || c == '-' || c == '_'

/-- One attempted match of the regex `/d/([a-zA-Z0-9\-_]+)` at the head of
`l`: the literal `/d/` followed by a non-empty greedy run of class
characters. -/
def matchAt (l : Str) : Option Str :=
  match l with
  | a :: b :: c :: t =>
    if a = '/' ∧ b = 'd' ∧ c = '/' then
      if (t.takeWhile classChar).isEmpty then none else some (t.takeWhile classChar)
    else none
  | _ => none

/-- `re.search(r"/d/([a-zA-Z0-9\-_]+)", s)`: try the pattern at every
position, left to right, and return the first captured group. -/
def reSearchDId : Str → Option Str
  | [] => none
  | c :: rest =>
    match matchAt (c :: rest) with
    | some r => some r
    | none => reSearchDId rest

/-- `app.py` `extract_id` (lines 21-30). -/
def extract_id (s : Str) : Str :=
  match reSearchDId s with
  | some g => g
  | none => s

/-- Modelled from the spec: the `src` tree of the repository has no history/period
endpoint (spec section 4.4 `rangeFilter` and section 4.5 History/Period
describe it); this is the membership test "resolved date lies in
`[start, end]`", with unparsable-date rows excluded. -/
def inDateRange (s e : Date) (row : Row) : Bool :=
  match parse_date (row.headD []) with
  | some d => decide (dkey s ≤ dkey d) && decide (dkey d ≤ dkey e)
  | none => false

/-- Modelled from the spec: `rangeFilter(start, end)` - all records whose
resolved date lies in `[start, end]`, unparsable-date records silently
excluded, order preserved (spec section 4.4). -/
def rangeFilter (rows : List Row) (s e : Date) : List Row :=
  rows.filter (inDateRange s e)

def invalidRangeMsg : Str := "InvalidRangeError".toList

/-- Modelled from the spec: `getHistory` requires `start <= end` (else
`InvalidRangeError`) and only then fetches the grid and delegates to
`rangeFilter` (spec sections 4.5, 6, 8).  The fetch is passed as a thunk so
that "fails before any fetch is attempted" is expressible. -/
def getHistory (fetch : Unit → Grid) (s e : Date) : Except Str (List Row) :=
  if dkey e < dkey s then .error invalidRangeMsg
  else .ok (rangeFilter (data_rows (fetch ())) s e)

/-! Concrete sample data used by counterexamples and witnesses. -/

/-- A first header row, as in the sheets (row 1 is decorative). -/
def hdrRow1 : Row := ["フォームの回答".toList]

/-- Health-tab header row (sheet row 2). -/
def hdrHealth : Row := ["タイムスタンプ".toList, "何時間寝た？".toList, "今日の気分は？".toList]

/-- Work-tab header row (sheet row 2). -/
def hdrWork : Row := ["タイムスタンプ".toList, "10時以降、何した？".toList, "午後何した？".toList]

def rowTieA : Row := ["2025/06/02 09:00:00".toList, "7".toList, "A".toList]

def rowTieB : Row := ["2025/06/02 10:00:00".toList, "8".toList, "B".toList]

/-- Two rows with the same resolved date 2025-06-02. -/
def gTie : Grid := [hdrRow1, hdrHealth, rowTieA, rowTieB]

def rowM5 : Row := ["2025/06/01 08:00:00".toList, "7".toList, "5".toList]

def rowM7 : Row := ["2025/06/02 08:00:00".toList, "7".toList, "7".toList]

def rowMx : Row := ["2025/06/01 08:00:00".toList, "7".toList, "bad".toList]

def rowMy : Row := ["2025/06/02 08:00:00".toList, "7".toList, "ok".toList]

/-- Mood goes 5 then 7: today strictly above yesterday. -/
def gImproved : Grid := [hdrRow1, hdrHealth, rowM5, rowM7]

/-- Mood goes 7 then 5: today strictly below yesterday. -/
def gDeclined : Grid := [hdrRow1, hdrHealth, rowM7, rowM5]

/-- Non-numeric mood values. -/
def gNonNumeric : Grid := [hdrRow1, hdrHealth, rowMx, rowMy]

def rowH1 : Row := ["2025-06-02 09:00:00".toList, "8".toList, "good".toList]

def rowH2 : Row := ["2025-06-02 21:00:00".toList, "6".toList, "tired".toList]

/-- Health grid with one row matching the date 2025-06-02. -/
def gDailyH : Grid := [hdrRow1, hdrHealth, rowH1]

/-- Health grid with two rows matching the date 2025-06-02. -/
def gDailyH2 : Grid := [hdrRow1, hdrHealth, rowH1, rowH2]

/-- Work grid with no data rows at all. -/
def gDailyW : Grid := [hdrRow1, hdrWork]

def rowW1 : Row := ["2025/06/01 09:00:00".toList, "meetings".toList, "coding".toList]

def rowW2 : Row := ["2025/06/02 09:00:00".toList, "review".toList, "docs".toList]

def rowW3 : Row := ["2025/06/01 13:00:00".toList, "email".toList, "ops".toList]

/-- Work grid `[A(day1), B(day2), C(day1, appended last)]`. -/
def gWork3 : Grid := [hdrRow1, hdrWork, rowW1, rowW2, rowW3]

/-- Grid whose tail has only blank-key rows. -/
def gWorkEmpty : Grid := [hdrRow1, hdrWork, ["   ".toList, "x".toList]]

example : parse_date ("2025/06/02 09:17:00".toList) = some (2025, 6, 2) := by decide
example : parse_date ("2025-06-02".toList) = none := by decide
example : parse_date ("2025/6/2".toList) = some (2025, 6, 2) := by decide
example : parse_date ("2025/02/29".toList) = none := by decide
example : parse_date ("2024/02/29".toList) = some (2024, 2, 29) := by decide
example : get_latest_from_health_tab gTie = .ok (makeRecord hdrHealth rowTieA) := rfl
example : get_latest_from_work_tab gWork3 = .ok (makeRecord hdrWork rowW3) := rfl
example : get_latest_from_work_tab gWorkEmpty = .error workEmptyMsg := rfl
example : (healthdata_compare gImproved).adviceOf = adviceFixed := by decide
example : daily_summary gDailyH gDailyW ("2025-06-02".toList)
    = .ok ("2025-06-02".toList) (makeRecord hdrHealth rowH1) []
        ("2025-06-02 のまとめ: 睡眠 8、気分 good。".toList) := by decide
example : latest_dict ["a".toList, "b".toList] ["x".toList] = [("a".toList, "x".toList)] := by decide
example : extract_id ("https://docs.google.com/spreadsheets/d/XYZ-12_a/edit".toList) = "XYZ-12_a".toList := by decide
example : ∀ t : Str, parse_date ("2025/06/02".toList ++ ' ' :: t) = some (2025, 6, 2) := fun _ => rfl

/-! Helper lemmas. -/

theorem pyStrip_eq_nil (s : Str) (h : pyStrip s = []) : ∀ c ∈ s, isSpace c = true := by
  unfold pyStrip at h
  have h1 : (s.dropWhile isSpace).reverse.dropWhile isSpace = [] := by
    have := congrArg List.reverse h
    simpa using this
  have h2 : ∀ c ∈ (s.dropWhile isSpace).reverse, isSpace c = true :=
    List.dropWhile_eq_nil_iff.mp h1
  have h3 : ∀ c ∈ s.dropWhile isSpace, isSpace c = true := by
    intro c hc
    exact h2 c (List.mem_reverse.mpr hc)
  intro c hc
  rcases (List.mem_append.mp (by
    rw [List.takeWhile_append_dropWhile isSpace s]
    exact hc)) with h4 | h4
  · exact List.mem_takeWhile_imp h4
  · exact h3 c h4

theorem isDigit_not_isSpace (c : Char) (h : c.isDigit = true) : isSpace c = false := by
  cases hsp : isSpace c with
  | false => rfl
  | true =>
    exfalso
    unfold isSpace at hsp
    simp only [Bool.or_eq_true, beq_iff_eq] at hsp
    rcases hsp with ((((h1 | h1) | h1) | h1) | h1) | h1 <;> subst h1 <;>
      exact absurd h (by decide)

theorem pyStarts_cons (s : Str) (p : Char) (ps : Str) (h : pyStarts s (p :: ps) = true) :
    ∃ t, s = p :: t := by
  cases s with
  | nil => simp [pyStarts] at h
  | cons c t =>
    unfold pyStarts at h
    have h1 : (c == p) = true := by
      cases hcp : c == p with
      | true => rfl
      | false => rw [hcp] at h; simp at h
    exact ⟨t, by rw [eq_of_beq h1]⟩

theorem splitOn1_ne_nil (sep : Char) (l : Str) : splitOn1 sep l ≠ [] := by
  cases l with
  | nil => simp [splitOn1]
  | cons c rest =>
    unfold splitOn1
    by_cases h : (c == sep) = true
    · simp [h]
    · simp only [Bool.not_eq_true] at h
      rw [if_neg (by simp [h])]
      cases hs : splitOn1 sep rest with
      | nil => simp
      | cons w ws => simp

theorem splitOn1_head (sep : Char) (l : Str) :
    (splitOn1 sep l).headD [] = l.takeWhile (fun c => !(c == sep)) := by
  induction l with
  | nil => rfl
  | cons c rest ih =>
    unfold splitOn1
    by_cases h : (c == sep) = true
    · rw [if_pos h]
      simp [List.takeWhile_cons, h]
    · simp only [Bool.not_eq_true] at h
      rw [if_neg (by simp [h])]
      cases hs : splitOn1 sep rest with
      | nil => exact absurd hs (splitOn1_ne_nil sep rest)
      | cons w ws =>
        rw [hs] at ih
        simp only [List.headD_cons] at ih
        simp [List.takeWhile_cons, h, ← ih]

theorem parseYMDparts_ys (ys ms ds : Str) (d : Date) (h : parseYMDparts ys ms ds = some d) :
    allDigits ys = true := by
  unfold parseYMDparts at h
  split at h
  · rename_i hcond
    simp only [Bool.and_eq_true] at hcond
    exact hcond.1.1.1.1.1.1.1.1.1.1
  · exact Option.noConfusion h

theorem parseYMDSep_head_digit (sep : Char) (s : Str) (d : Date)
    (h : parseYMDSep sep s = some d) : ∃ c t, s = c :: t ∧ c.isDigit = true := by
  unfold parseYMDSep at h
  cases hs : splitOn1 sep s with
  | nil => rw [hs] at h; exact Option.noConfusion h
  | cons ys rest =>
    rw [hs] at h
    cases rest with
    | nil => exact Option.noConfusion h
    | cons ms rest2 =>
      cases rest2 with
      | nil => exact Option.noConfusion h
      | cons ds rest3 =>
        cases rest3 with
        | cons r4 rest4 => exact Option.noConfusion h
        | nil =>
          have hp : parseYMDparts ys ms ds = some d := h
          have hall : allDigits ys = true := parseYMDparts_ys ys ms ds d hp
          have hhead : (splitOn1 sep s).headD [] = ys := by rw [hs]; rfl
          rw [splitOn1_head] at hhead
          unfold allDigits at hall
          have hne : ys.isEmpty = false := by

            cases hgo : ys.isEmpty with
            | false => rfl
            | true => rw [hgo] at hall; simp at hall
          have hdigits : ys.all Char.isDigit = true := by
            rw [hne] at hall; simpa using hall
          cases s with
          | nil =>
            simp only [List.takeWhile_nil] at hhead
            rw [← hhead] at hne; simp at hne
          | cons c t =>
            refine ⟨c, t, rfl, ?_⟩
            rw [List.takeWhile_cons] at hhead
            by_cases hcs : (!(c == sep)) = true
            · rw [if_pos hcs] at hhead
              have hc : c ∈ ys := by rw [← hhead]; exact List.mem_cons_self c _
              exact List.all_eq_true.mp hdigits c hc
            · rw [if_neg hcs] at hhead
              rw [← hhead] at hne; simp at hne

theorem mem_filterStartsWith (ds : Str) :
    ∀ (rows : List Row) (l : List Row), filterStartsWith ds rows = .ok l →
      ∀ r ∈ l, ∃ c cs, r = c :: cs ∧ pyStarts c ds = true ∧ r ∈ rows := by
  intro rows
  induction rows with
  | nil =>
    intro l hl r hr
    unfold filterStartsWith at hl
    cases hl
    simp at hr
  | cons row rest ih =>
    intro l hl r hr
    cases row with
    | nil => unfold filterStartsWith at hl; cases hl
    | cons c cs =>
      unfold filterStartsWith at hl
      cases hfs : filterStartsWith ds rest with
      | error e => rw [hfs] at hl; cases hl
      | ok rs =>
        rw [hfs] at hl
        simp only [Except.ok.injEq] at hl
        by_cases hst : pyStarts c ds = true
        · rw [if_pos hst] at hl
          rw [← hl] at hr
          rcases List.mem_cons.mp hr with h1 | h1
          · exact ⟨c, cs, h1, hst, by rw [h1]; exact List.mem_cons_self _ _⟩
          · rcases ih rs hfs r h1 with ⟨c2, cs2, he, hs2, hm⟩
            exact ⟨c2, cs2, he, hs2, List.mem_cons_of_mem _ hm⟩
        · rw [if_neg hst] at hl
          rw [← hl] at hr
          rcases ih rs hfs r hr with ⟨c2, cs2, he, hs2, hm⟩
          exact ⟨c2, cs2, he, hs2, List.mem_cons_of_mem _ hm⟩

theorem pyMaxBy_first (xs : List (Row × Date)) :
    ∀ b : Row × Date,
      (∀ y ∈ b :: xs, dkeyP y ≤ dkeyP (pyMaxBy rdLt b xs)) ∧
      ∃ l1 l2, b :: xs = l1 ++ pyMaxBy rdLt b xs :: l2 ∧
        ∀ y ∈ l1, dkeyP y < dkeyP (pyMaxBy rdLt b xs) := by
  induction xs with
  | nil =>
    intro b
    refine ⟨?_, [], [], rfl, ?_⟩
    · intro y hy
      rcases List.mem_cons.mp hy with h1 | h1
      · rw [h1]
        exact Nat.le_refl _
      · simp at h1
    · intro y hy; simp at hy
  | cons z zs ih =>
    intro b
    have hstep : pyMaxBy rdLt b (z :: zs) = pyMaxBy rdLt (if rdLt b z then z else b) zs := rfl
    by_cases hbz : dkeyP b < dkeyP z
    · have hz : (if rdLt b z then z else b) = z := by simp [rdLt, hbz]
      rw [hstep, hz]
      rcases ih z with ⟨hbound, l1, l2, hdec, hstrict⟩
      refine ⟨?_, b :: l1, l2, ?_, ?_⟩
      · intro y hy
        rcases List.mem_cons.mp hy with h1 | h1
        · rw [h1]
          exact le_of_lt (lt_of_lt_of_le hbz (hbound z (List.mem_cons_self z zs)))
        · exact hbound y h1
      · rw [List.cons_append, ← hdec]
      · intro y hy
        rcases List.mem_cons.mp hy with h1 | h1
        · rw [h1]
          exact lt_of_lt_of_le hbz (hbound z (List.mem_cons_self z zs))
        · exact hstrict y h1
    · have hz : (if rdLt b z then z else b) = b := by simp [rdLt, hbz]
      rw [hstep, hz]
      rcases ih b with ⟨hbound, l1, l2, hdec, hstrict⟩
      have hzb : dkeyP z ≤ dkeyP b := Nat.le_of_not_lt hbz
      have hbr : dkeyP b ≤ dkeyP (pyMaxBy rdLt b zs) := hbound b (List.mem_cons_self b zs)
      refine ⟨?_, ?_⟩
      · intro y hy
        rcases List.mem_cons.mp hy with h1 | h1
        · rw [h1]; exact hbr
        · rcases List.mem_cons.mp h1 with h2 | h2
          · rw [h2]; exact le_trans hzb hbr
          · exact hbound y (List.mem_cons_of_mem b h2)
      · cases l1 with
        | nil =>
          simp only [List.nil_append] at hdec
          have hrb : pyMaxBy rdLt b zs = b := (List.cons.injEq .. ▸ hdec : _ ∧ _).1.symm
          refine ⟨[], z :: zs, ?_, ?_⟩
          · rw [hrb]
            simp
          · intro y hy; simp at hy
        | cons a l1t =>
          rw [List.cons_append] at hdec
          have ha : a = b := ((List.cons.injEq .. ▸ hdec : _ ∧ _).1).symm
          have hzs : zs = l1t ++ pyMaxBy rdLt b zs :: l2 := (List.cons.injEq .. ▸ hdec : _ ∧ _).2
          have hblt : dkeyP b < dkeyP (pyMaxBy rdLt b zs) := by
            have hb2 := hstrict a (List.mem_cons_self a l1t)
            rw [ha] at hb2
            exact hb2
          refine ⟨b :: z :: l1t, l2, ?_, ?_⟩
          · rw [List.cons_append, List.cons_append, ← hzs]
          · intro y hy
            rcases List.mem_cons.mp hy with h1 | h1
            · rw [h1]; exact hblt
            · rcases List.mem_cons.mp h1 with h2 | h2
              · rw [h2]; exact lt_of_le_of_lt hzb hblt
              · exact hstrict y (List.mem_cons_of_mem a h2)

theorem dictInsert_notmem (d : Record) (k v : Str) (h : ∀ p ∈ d, p.1 ≠ k) :
    dictInsert d k v = d ++ [(k, v)] := by
  unfold dictInsert
  rw [if_neg]
  simp only [List.any_eq_true, not_exists, not_and]
  intro p hp
  simp [h p hp]

theorem foldInsert_nodup (ps : List (Str × Str)) :
    ∀ acc : Record, (ps.map Prod.fst).Nodup → (∀ q ∈ ps, ∀ p ∈ acc, p.1 ≠ q.1) →
      ps.foldl (fun d q => dictInsert d q.1 q.2) acc = acc ++ ps := by
  induction ps with
  | nil => intro acc _ _; simp
  | cons q qs ih =>
    intro acc hnd hdisj
    simp only [List.foldl_cons]
    rw [dictInsert_notmem acc q.1 q.2 (fun p hp => hdisj q (List.mem_cons_self q qs) p hp)]
    simp only [List.map_cons, List.nodup_cons] at hnd
    rw [ih (acc ++ [(q.1, q.2)]) hnd.2 ?disj]
    · simp
    case disj =>
      intro q2 hq2 p hp
      rcases List.mem_append.mp hp with h1 | h1
      · exact hdisj q2 (List.mem_cons_of_mem q hq2) p h1
      · have hp1 : p = (q.1, q.2) := by simpa using h1
        rw [hp1]
        intro hcontra
        exact hnd.1 (hcontra ▸ List.mem_map_of_mem Prod.fst hq2)

theorem makeRecord_nodup (headers : List Str) (row : Row) (h : headers.Nodup) :
    makeRecord headers row = headers.enum.map (fun p => (p.2, row.getD p.1 [])) := by
  unfold makeRecord
  rw [← List.foldl_map (fun p : Nat × Str => (p.2, row.getD p.1 []))
        (fun d q => dictInsert d q.1 q.2) headers.enum []]
  have hkeys : ((headers.enum.map (fun p : Nat × Str => (p.2, row.getD p.1 []))).map
      Prod.fst) = headers := by
    rw [List.map_map]
    exact List.enumFrom_map_snd 0 headers
  rw [foldInsert_nodup _ [] (by rw [hkeys]; exact h) (by intro q hq p hp; simp at hp)]
  simp

theorem map_fst_zip_sublist (l1 : List Str) :
    ∀ l2 : Row, ((l1.zip l2).map Prod.fst).Sublist l1 := by
  induction l1 with
  | nil => intro l2; simp
  | cons a t ih =>
    intro l2
    cases l2 with
    | nil => simp
    | cons b t2 =>
      rw [List.zip_cons_cons, List.map_cons]
      exact List.Sublist.cons₂ a (ih t2)

theorem latest_dict_nodup (cols : List Str) (row : Row) (h : cols.Nodup) :
    latest_dict cols row = cols.zip row := by
  unfold latest_dict
  rw [foldInsert_nodup (cols.zip row) []
        (List.Sublist.nodup (map_fst_zip_sublist cols row) h)
        (by intro q hq p hp; simp at hp)]
  simp

theorem getLast?_cons_eq (a : Row) (l : List Row) :
    (a :: l).getLast? = some ((a :: l).getLastD []) := by
  induction l generalizing a with
  | nil => rfl
  | cons b t ih =>
    rw [List.getLast?_cons_cons, ih b]
    rfl

theorem daysInMonth_le_31 (y m : Nat) : daysInMonth y m ≤ 31 := by
  unfold daysInMonth
  split
  · split <;> omega
  · split <;> omega

theorem parseYMDparts_bounds (ys ms ds : Str) (d : Date)
    (h : parseYMDparts ys ms ds = some d) :
    1 ≤ d.2.1 ∧ d.2.1 ≤ 12 ∧ 1 ≤ d.2.2 ∧ d.2.2 ≤ 31 := by
  unfold parseYMDparts at h
  split at h
  · rename_i hcond
    simp only [Bool.and_eq_true, decide_eq_true_eq] at hcond
    have hd : d = (digitsVal ys, digitsVal ms, digitsVal ds) := (Option.some.injEq .. ▸ h).symm
    rw [hd]
    refine ⟨hcond.1.1.1.1.1.2, hcond.1.1.1.1.2, hcond.1.2, ?_⟩
    exact le_trans hcond.2 (daysInMonth_le_31 _ _)
  · exact Option.noConfusion h

/-! Claim theorems. -/

/-- C1 (counterexample): the claim says resolving the dash format
`"2025-06-02"` succeeds; in the code `parse_date` tries only `%Y/%m/%d`, so
it fails (`ValueError`, modelled as `none`). -/
theorem c1_dash_rejected_cex : parse_date ("2025-06-02".toList) = none := rfl

/-- C1 (amended): the date resolver accepts only the slash format; the
time-of-day after the first whitespace is ignored (any tail `t` after the
blank gives the same date), `"2025/06/02 09:17:00"` resolves to calendar date
2025-06-02, and the dash format `"2025-06-02"` is unparsable. -/
theorem c1_slash_only_with_time_ignored :
    (∀ t : Str, parse_date ("2025/06/02".toList ++ ' ' :: t) = some (2025, 6, 2)) ∧
    parse_date ("2025/06/02 09:17:00".toList) = some (2025, 6, 2) ∧
    parse_date ("2025-06-02".toList) = none :=
  ⟨fun _ => rfl, rfl, rfl⟩

/-- C2 (counterexample): the claim says the compare operation picks one of
three distinct fixed sentences by numeric comparison of the mood field
(today `7` over yesterday `5` yields the "improved" sentence, non-numeric
moods yield the "stable" one).  The code emits the same single fixed sentence
in the improved case, the declined case and the non-numeric case, so no
distinct "improved" sentence exists. -/
theorem c2_advice_ignores_mood_cex :
    (healthdata_compare gImproved).adviceOf = adviceFixed ∧
    (healthdata_compare gDeclined).adviceOf = adviceFixed ∧
    (healthdata_compare gNonNumeric).adviceOf = adviceFixed :=
  ⟨rfl, rfl, rfl⟩

/-- C2 (amended): whenever the compare operation succeeds (at least two data
rows), its advice is the single fixed sample sentence, independent of the
mood field values; no numeric comparison is performed. -/
theorem c2_advice_is_fixed (all : Grid) (h : (healthdata_compare all).isOkC = true) :
    (healthdata_compare all).adviceOf = adviceFixed := by
  unfold healthdata_compare at h ⊢
  cases hrev : (data_rows all).reverse with
  | nil =>
    rw [hrev] at h
    exact Bool.noConfusion h
  | cons t r =>
    cases r with
    | nil =>
      rw [hrev] at h
      exact Bool.noConfusion h
    | cons y r2 =>
      rfl

/-- C2 (witness): the amended theorem applied to the improved-mood grid. -/
theorem c2_advice_is_fixed_witness :
    (healthdata_compare gImproved).isOkC = true ∧
    (healthdata_compare gImproved).adviceOf = adviceFixed :=
  ⟨rfl, c2_advice_is_fixed gImproved rfl⟩

/-- C3 (counterexample): two rows of `gTie` resolve to the same maximal date
2025-06-02; the claim says the later row (`rowTieB`) is returned, but the
code uses Python `max`, which keeps the first maximal element, so the record
of the earlier row is returned and it differs from the record of the later row. -/
theorem c3_tie_keeps_earlier_cex :
    parse_date (rowTieA.headD []) = some (2025, 6, 2) ∧
    parse_date (rowTieB.headD []) = some (2025, 6, 2) ∧
    valid_date_rows (data_rows gTie) = [(rowTieA, (2025, 6, 2)), (rowTieB, (2025, 6, 2))] ∧
    get_latest_from_health_tab gTie = .ok (makeRecord hdrHealth rowTieA) ∧
    makeRecord hdrHealth rowTieA ≠ makeRecord hdrHealth rowTieB :=
  ⟨rfl, rfl, rfl, rfl, by decide⟩

/-- C3 (amended): for every non-empty list of date-resolvable rows, the
latest-by-resolved-date operation returns the record of the row at the
EARLIER sequence position among the maximal-date rows: the returned pair
`ch` is maximal and everything strictly before it has a strictly smaller
date key. -/
theorem c3_latest_by_date_first_max (all : Grid) (x : Row × Date) (xs : List (Row × Date))
    (hv : valid_date_rows (data_rows all) = x :: xs) :
    ∃ l1 l2 ch, x :: xs = l1 ++ ch :: l2 ∧
      get_latest_from_health_tab all = .ok (makeRecord (headersOf all) ch.1) ∧
      (∀ y ∈ x :: xs, dkeyP y ≤ dkeyP ch) ∧
      (∀ y ∈ l1, dkeyP y < dkeyP ch) := by
  rcases pyMaxBy_first xs x with ⟨hbound, l1, l2, hdec, hstrict⟩
  refine ⟨l1, l2, pyMaxBy rdLt x xs, hdec, ?_, hbound, hstrict⟩
  cases hdr : data_rows all with
  | nil =>
    rw [hdr] at hv
    exact absurd hv (by simp [valid_date_rows])
  | cons r rs =>
    rw [hdr] at hv
    unfold get_latest_from_health_tab
    rw [hdr, hv]
    simp only [List.isEmpty_cons, Bool.false_eq_true, if_false, latestValidPair]

/-- C3 (witness): the amended theorem applied to the tie grid `gTie`. -/
theorem c3_latest_by_date_first_max_witness :
    valid_date_rows (data_rows gTie) = [(rowTieA, (2025, 6, 2)), (rowTieB, (2025, 6, 2))] ∧
    ∃ l1 l2 ch,
      [(rowTieA, (2025, 6, 2)), (rowTieB, (2025, 6, 2))] = l1 ++ ch :: l2 ∧
      get_latest_from_health_tab gTie = .ok (makeRecord (headersOf gTie) ch.1) ∧
      (∀ y ∈ [(rowTieA, (2025, 6, 2)), (rowTieB, (2025, 6, 2))], dkeyP y ≤ dkeyP ch) ∧
      (∀ y ∈ l1, dkeyP y < dkeyP ch) :=
  ⟨rfl, c3_latest_by_date_first_max gTie (rowTieA, (2025, 6, 2)) [(rowTieB, (2025, 6, 2))] rfl⟩

/-- C4 (counterexample): two failure modes of the exactly-`len(header)`-keys
claim.  First, the claim covers the `check_sheet.py` normalization
`dict(zip(columns, latest))` as well, but on a header of 3 names and a row of
1 cell that dict has 1 key, not `len(header) = 3`, and the missing sleep
field is absent rather than mapped to the empty string.  Second, even the
`app.py` builder produces fewer than `len(header)` keys when header names
repeat: on the duplicate header `["a", "a"]` with row `["x", "y"]` the
record is the single pair `("a", "y")` (the later column overwrites the
earlier one), 1 key instead of 2 - this is what forces the
distinct-column-names hypothesis of the amended claim. -/
theorem c4_zip_drops_short_cex :
    (latest_dict hdrHealth ["2025-06-02".toList]).length = 1 ∧
    hdrHealth.length = 3 ∧
    dictGet (latest_dict hdrHealth ["2025-06-02".toList]) sleepKey ("MISSING".toList)
      = "MISSING".toList ∧
    makeRecord ["a".toList, "a".toList] ["x".toList, "y".toList]
      = [("a".toList, "y".toList)] ∧
    (makeRecord ["a".toList, "a".toList] ["x".toList, "y".toList]).length = 1 ∧
    (["a".toList, "a".toList] : List Str).length = 2 :=
  ⟨rfl, rfl, rfl, rfl, rfl, rfl⟩

/-- C4 (amended): for every header row with pairwise-distinct column names
and every data row, the `app.py` record normalization is total (never raises,
also on ragged or empty rows) and yields exactly one key per header name,
with positions beyond the row length mapped to the empty string and extra
trailing cells dropped; the `check_sheet.py` zip normalization instead keeps
only the first `min(len(header), len(row))` pairs.  The distinct-names
hypothesis is forced by the duplicate-header part of the counterexample:
with repeated names the dict collapses keys even in `app.py`. -/
theorem c4_normalize_total (headers : List Str) (row : Row) (h : headers.Nodup) :
    makeRecord headers row = headers.enum.map (fun p => (p.2, row.getD p.1 [])) ∧
    (makeRecord headers row).length = headers.length ∧
    latest_dict headers row = headers.zip row ∧
    (latest_dict headers row).length = min headers.length row.length := by
  have h1 := makeRecord_nodup headers row h
  have h2 := latest_dict_nodup headers row h
  refine ⟨h1, ?_, h2, ?_⟩
  · rw [h1, List.length_map]
    exact List.enumFrom_length
  · rw [h2]
    exact List.length_zip headers row

/-- C4 (witness): the amended theorem applied to the health header and a
one-cell row. -/
theorem c4_normalize_total_witness :
    hdrHealth.Nodup ∧
    (makeRecord hdrHealth ["x".toList] =
        hdrHealth.enum.map (fun p => (p.2, ["x".toList].getD p.1 [])) ∧
      (makeRecord hdrHealth ["x".toList]).length = hdrHealth.length ∧
      latest_dict hdrHealth ["x".toList] = hdrHealth.zip ["x".toList] ∧
      (latest_dict hdrHealth ["x".toList]).length = min hdrHealth.length ["x".toList].length) :=
  ⟨by decide, c4_normalize_total hdrHealth ["x".toList] (by decide)⟩

/-- C5 (counterexample): with the target date present in the health tab but
absent from the work tab, the summary succeeds with an empty work record, but
the comment contains no `-` placeholders for the work fields - the whole
morning/afternoon segment is omitted (no `午前`/`午後` occurs at all),
contradicting the claimed `-` substitution. -/
theorem c5_comment_omits_work_cex :
    daily_summary gDailyH gDailyW ("2025-06-02".toList)
      = .ok ("2025-06-02".toList) (makeRecord hdrHealth rowH1) []
          "2025-06-02 のまとめ: 睡眠 8、気分 good。".toList ∧
    hasSub ("午前".toList) ((daily_summary gDailyH gDailyW ("2025-06-02".toList)).commentOf)
      = false ∧
    hasSub ("午後".toList) ((daily_summary gDailyH gDailyW ("2025-06-02".toList)).commentOf)
      = false :=
  ⟨rfl, rfl, rfl⟩

/-- C5 (amended): whenever the (valid) target date matches at least one
health row and no work row, the daily summary succeeds: the work side is the
empty record and the comment consists of the health segment only - the
work-derived fields are omitted entirely rather than rendered as `-`. -/
theorem c5_work_absent_ok (healthAll workAll : Grid) (dateArg : Str) (d : Date)
    (h0 lastH : Row) (hs : List Row)
    (hd : parseYMDSep '-' (pyStrip dateArg) = some d)
    (hh : filterStartsWith (pyStrip dateArg) (healthAll.drop 2) = .ok (h0 :: hs))
    (hl : (h0 :: hs).getLast? = some lastH)
    (hw : filterStartsWith (pyStrip dateArg) (workAll.drop 2) = .ok []) :
    daily_summary healthAll workAll dateArg =
      .ok (pyStrip dateArg) (makeRecord (headersOf healthAll) lastH) []
        (pyStrip dateArg ++ " のまとめ: 睡眠 ".toList
          ++ dictGet (makeRecord (headersOf healthAll) lastH) sleepKey ("-".toList)
          ++ "、気分 ".toList
          ++ dictGet (makeRecord (headersOf healthAll) lastH) moodKey ("-".toList)
          ++ "。".toList) := by
  obtain ⟨c, t, hct, -⟩ := parseYMDSep_head_digit '-' (pyStrip dateArg) d hd
  have hemp : (pyStrip dateArg).isEmpty = false := by rw [hct]; rfl
  unfold daily_summary
  rw [hd, hh, hw]
  simp only [hemp, Bool.false_eq_true, if_false]
  rw [hl]
  simp only [List.getLast?_nil, dsComment, List.isEmpty_nil, if_true,
    List.append_nil, List.append_assoc]

/-- C5 (witness): the amended theorem applied to `gDailyH` / `gDailyW` at
date 2025-06-02. -/
theorem c5_work_absent_ok_witness :
    parseYMDSep '-' (pyStrip ("2025-06-02".toList)) = some (2025, 6, 2) ∧
    filterStartsWith (pyStrip ("2025-06-02".toList)) (gDailyH.drop 2) = .ok [rowH1] ∧
    [rowH1].getLast? = some rowH1 ∧
    filterStartsWith (pyStrip ("2025-06-02".toList)) (gDailyW.drop 2) = .ok [] ∧
    daily_summary gDailyH gDailyW ("2025-06-02".toList) =
      .ok (pyStrip ("2025-06-02".toList)) (makeRecord (headersOf gDailyH) rowH1) []
        (pyStrip ("2025-06-02".toList) ++ " のまとめ: 睡眠 ".toList
          ++ dictGet (makeRecord (headersOf gDailyH) rowH1) sleepKey ("-".toList)
          ++ "、気分 ".toList
          ++ dictGet (makeRecord (headersOf gDailyH) rowH1) moodKey ("-".toList)
          ++ "。".toList) :=
  ⟨rfl, rfl, rfl, rfl,
   c5_work_absent_ok gDailyH gDailyW ("2025-06-02".toList) (2025, 6, 2) rowH1 rowH1 []
     rfl rfl rfl rfl⟩

/-- C6: a row whose first cell is blank or whitespace-only after trimming
never enters the record table: it is excluded by the `data_rows` filter of
the latest/compare operations, and in the daily-summary lookup it can never
match a valid `YYYY-MM-DD` target (such a match would have to start with a
digit). -/
theorem c6_blank_key_excluded (all : Grid) :
    (∀ row ∈ data_rows all, ∃ c cs, row = c :: cs ∧ pyStrip c ≠ []) ∧
    (∀ ds d hrows row, parseYMDSep '-' ds = some d →
       filterStartsWith ds (all.drop 2) = .ok hrows → row ∈ hrows →
       ∃ c cs, row = c :: cs ∧ pyStrip c ≠ []) := by
  constructor
  · intro row hrow
    unfold data_rows at hrow
    have hf := (List.mem_filter.mp hrow).2
    cases row with
    | nil => exact Bool.noConfusion hf
    | cons c cs =>
      refine ⟨c, cs, rfl, ?_⟩
      intro hnil
      simp only [rowFilter] at hf
      rw [hnil] at hf
      exact Bool.noConfusion hf
  · intro ds d hrows row hd hfs hmem
    rcases mem_filterStartsWith ds (all.drop 2) hrows hfs row hmem with ⟨c, cs, he, hst, -⟩
    rcases parseYMDSep_head_digit '-' ds d hd with ⟨dc, dt, hdse, hdig⟩
    rw [hdse] at hst
    rcases pyStarts_cons c dc dt hst with ⟨t2, hc⟩
    refine ⟨c, cs, he, ?_⟩
    intro hnil
    have hsp := pyStrip_eq_nil c hnil dc (by rw [hc]; exact List.mem_cons_self _ _)
    rw [isDigit_not_isSpace dc hdig] at hsp
    exact Bool.noConfusion hsp

/-- C6 (witness): applied to the first data row of the tie grid and to the
daily-summary health lookup on `gDailyH`. -/
theorem c6_blank_key_excluded_witness :
    (rowTieA ∈ data_rows gTie ∧ ∃ c cs, rowTieA = c :: cs ∧ pyStrip c ≠ []) ∧
    (parseYMDSep '-' "2025-06-02".toList = some (2025, 6, 2) ∧
     filterStartsWith ("2025-06-02".toList) (gDailyH.drop 2) = .ok [rowH1] ∧
     rowH1 ∈ [rowH1] ∧ (∃ c cs, rowH1 = c :: cs ∧ pyStrip c ≠ [])) :=
  ⟨⟨by decide, (c6_blank_key_excluded gTie).1 rowTieA (by decide)⟩,
   ⟨rfl, rfl, List.mem_cons_self _ _,
    (c6_blank_key_excluded gDailyH).2 ("2025-06-02".toList) (2025, 6, 2) [rowH1] rowH1
      rfl rfl (List.mem_cons_self _ _)⟩⟩

/-- C7: the work-tab latest is append-order only: on an empty record table it
fails with the empty-table error, and on a non-empty table it returns the
record built from the last data row in sequence order, with no date logic
involved. -/
theorem c7_work_latest_append_order (all : Grid) :
    (data_rows all = [] → get_latest_from_work_tab all = .error workEmptyMsg) ∧
    (∀ x xs, data_rows all = x :: xs →
      get_latest_from_work_tab all
        = .ok (makeRecord (headersOf all) ((x :: xs).getLastD []))) := by
  constructor
  · intro h
    unfold get_latest_from_work_tab
    rw [h]
    rfl
  · intro x xs h
    unfold get_latest_from_work_tab
    rw [h, getLast?_cons_eq]

/-- C7 (witness): on `[A(day1), B(day2), C(day1, appended last)]` the work
latest is `C` (order beats date), and on a grid with only blank-key rows it
is the empty-table error. -/
theorem c7_work_latest_append_order_witness :
    (data_rows gWorkEmpty = [] ∧ get_latest_from_work_tab gWorkEmpty = .error workEmptyMsg) ∧
    (data_rows gWork3 = [rowW1, rowW2, rowW3] ∧
     get_latest_from_work_tab gWork3 = .ok (makeRecord (headersOf gWork3) rowW3)) :=
  ⟨⟨rfl, (c7_work_latest_append_order gWorkEmpty).1 rfl⟩,
   ⟨rfl, (c7_work_latest_append_order gWork3).2 rowW1 [rowW2, rowW3] rfl⟩⟩

/-- C8: when two or more health rows match the target date, the daily
summary uses the last matching row in original order, which is exactly the
first matching row in reverse sequence order. -/
theorem c8_daily_picks_last_match (healthAll workAll : Grid) (dateArg : Str) (d : Date)
    (h0 h1 : Row) (hrest : List Row) (wrows : List Row) (lastH : Row)
    (hd : parseYMDSep '-' (pyStrip dateArg) = some d)
    (hh : filterStartsWith (pyStrip dateArg) (healthAll.drop 2) = .ok (h0 :: h1 :: hrest))
    (hl : (h0 :: h1 :: hrest).getLast? = some lastH)
    (hw : filterStartsWith (pyStrip dateArg) (workAll.drop 2) = .ok wrows) :
    (∃ w c, daily_summary healthAll workAll dateArg
        = .ok (pyStrip dateArg) (makeRecord (headersOf healthAll) lastH) w c) ∧
    (h0 :: h1 :: hrest).reverse.head? = some lastH := by
  constructor
  · obtain ⟨c, t, hct, -⟩ := parseYMDSep_head_digit '-' (pyStrip dateArg) d hd
    have hemp : (pyStrip dateArg).isEmpty = false := by rw [hct]; rfl
    refine ⟨(match wrows.getLast? with
             | none => []
             | some lastW => makeRecord (headersOf workAll) lastW),
            dsComment (pyStrip dateArg) (makeRecord (headersOf healthAll) lastH)
              (match wrows.getLast? with
               | none => []
               | some lastW => makeRecord (headersOf workAll) lastW), ?_⟩
    unfold daily_summary
    rw [hd, hh, hw]
    simp only [hemp, Bool.false_eq_true, if_false]
    rw [hl]
  · rw [List.head?_reverse]
    exact hl

/-- C8 (witness): on `gDailyH2`, whose two data rows both match 2025-06-02,
the health side of the summary is built from the later row `rowH2`. -/
theorem c8_daily_picks_last_match_witness :
    parseYMDSep '-' (pyStrip ("2025-06-02".toList)) = some (2025, 6, 2) ∧
    filterStartsWith (pyStrip ("2025-06-02".toList)) (gDailyH2.drop 2) = .ok [rowH1, rowH2] ∧
    [rowH1, rowH2].getLast? = some rowH2 ∧
    filterStartsWith (pyStrip ("2025-06-02".toList)) (gDailyW.drop 2) = .ok [] ∧
    ((∃ w c, daily_summary gDailyH2 gDailyW ("2025-06-02".toList)
        = .ok (pyStrip ("2025-06-02".toList)) (makeRecord (headersOf gDailyH2) rowH2) w c) ∧
     [rowH1, rowH2].reverse.head? = some rowH2) :=
  ⟨rfl, rfl, rfl, rfl,
   c8_daily_picks_last_match gDailyH2 gDailyW ("2025-06-02".toList) (2025, 6, 2)
     rowH1 rowH2 [] [] rowH2 rfl rfl rfl rfl⟩

/-- C9: the spec-modelled history operation rejects `start > end` with
`InvalidRangeError` without consulting the fetched grid (the result does not
depend on the fetch thunk), and for `start <= end` it returns exactly the
data rows whose resolved date lies in the inclusive range, in original order
(a sublist of the table), with unparsable-date rows excluded. -/
theorem c9_history_range (f g : Unit → Grid) (s e : Date) :
    (dkey e < dkey s →
      getHistory f s e = .error invalidRangeMsg ∧ getHistory f s e = getHistory g s e) ∧
    (dkey s ≤ dkey e →
      ∃ l, getHistory f s e = .ok l ∧ l.Sublist (data_rows (f ())) ∧
        ∀ row, row ∈ l ↔ row ∈ data_rows (f ()) ∧
          ∃ d2, parse_date (row.headD []) = some d2 ∧
            dkey s ≤ dkey d2 ∧ dkey d2 ≤ dkey e) := by
  constructor
  · intro h
    constructor
    · unfold getHistory; rw [if_pos h]
    · unfold getHistory; rw [if_pos h, if_pos h]
  · intro h
    have hn : ¬ dkey e < dkey s := by omega
    refine ⟨rangeFilter (data_rows (f ())) s e, ?_, List.filter_sublist _, ?_⟩
    · unfold getHistory; rw [if_neg hn]
    · intro row
      unfold rangeFilter
      rw [List.mem_filter]
      constructor
      · rintro ⟨h1, h2⟩
        refine ⟨h1, ?_⟩
        unfold inDateRange at h2
        cases hp : parse_date (row.headD []) with
        | none => rw [hp] at h2; exact Bool.noConfusion h2
        | some d2 =>
          rw [hp] at h2
          have h3 : (decide (dkey s ≤ dkey d2) && decide (dkey d2 ≤ dkey e)) = true := h2
          simp only [Bool.and_eq_true, decide_eq_true_eq] at h3
          exact ⟨d2, rfl, h3.1, h3.2⟩
      · rintro ⟨h1, d2, hp, hs2, he2⟩
        refine ⟨h1, ?_⟩
        unfold inDateRange
        rw [hp]
        simp [hs2, he2]

/-- C9 (witness): the range check applied at concrete dates, with two
different fetch thunks for the error case. -/
theorem c9_history_range_witness :
    (dkey ((2025, 6, 1) : Date) < dkey ((2025, 6, 3) : Date) ∧
      getHistory (fun _ => gTie) (2025, 6, 3) (2025, 6, 1) = .error invalidRangeMsg ∧
      getHistory (fun _ => gTie) (2025, 6, 3) (2025, 6, 1)
        = getHistory (fun _ => gWork3) (2025, 6, 3) (2025, 6, 1)) ∧
    (dkey ((2025, 6, 1) : Date) ≤ dkey ((2025, 6, 3) : Date) ∧
      ∃ l, getHistory (fun _ => gTie) (2025, 6, 1) (2025, 6, 3) = .ok l ∧
        l.Sublist (data_rows ((fun _ => gTie) ())) ∧
        ∀ row, row ∈ l ↔ row ∈ data_rows ((fun _ => gTie) ()) ∧
          ∃ d2, parse_date (row.headD []) = some d2 ∧
            dkey ((2025, 6, 1) : Date) ≤ dkey d2 ∧ dkey d2 ≤ dkey ((2025, 6, 3) : Date)) :=
  ⟨⟨by decide,
    (c9_history_range (fun _ => gTie) (fun _ => gWork3) (2025, 6, 3) (2025, 6, 1)).1
      (by decide)⟩,
   ⟨by decide,
    (c9_history_range (fun _ => gTie) (fun _ => gTie) (2025, 6, 1) (2025, 6, 3)).2
      (by decide)⟩⟩

theorem matchAt_sub_class (l r : Str) (h : matchAt l = some r) :
    ∀ c ∈ r, classChar c = true := by
  cases l with
  | nil => simp [matchAt] at h
  | cons a l1 =>
    cases l1 with
    | nil => simp [matchAt] at h
    | cons b l2 =>
      cases l2 with
      | nil => simp [matchAt] at h
      | cons c t =>
        have h2 : (if a = '/' ∧ b = 'd' ∧ c = '/' then
            if (t.takeWhile classChar).isEmpty = true then none
            else some (t.takeWhile classChar)
          else none) = some r := h
        by_cases hp : a = '/' ∧ b = 'd' ∧ c = '/'
        · rw [if_pos hp] at h2
          by_cases hie : (t.takeWhile classChar).isEmpty = true
          · rw [if_pos hie] at h2
            exact Option.noConfusion h2
          · rw [if_neg hie] at h2
            injection h2 with hg
            intro x hx
            rw [← hg] at hx
            exact List.mem_takeWhile_imp hx
        · rw [if_neg hp] at h2
          exact Option.noConfusion h2

theorem reSearch_sub_class (l : Str) : ∀ r, reSearchDId l = some r →
    ∀ c ∈ r, classChar c = true := by
  induction l with
  | nil => intro r h; simp [reSearchDId] at h
  | cons a rest ih =>
    intro r h
    unfold reSearchDId at h
    cases hm : matchAt (a :: rest) with
    | some g =>
      rw [hm] at h
      injection h with hg
      intro x hx
      exact matchAt_sub_class (a :: rest) g hm x (hg.symm ▸ hx)
    | none =>
      rw [hm] at h
      exact ih r h

theorem matchAt_none_of_class (l : Str) (h : ∀ c ∈ l, classChar c = true) :
    matchAt l = none := by
  cases l with
  | nil => rfl
  | cons a l1 =>
    cases l1 with
    | nil => rfl
    | cons b l2 =>
      cases l2 with
      | nil => rfl
      | cons c t =>
        show (if a = '/' ∧ b = 'd' ∧ c = '/' then
            if (t.takeWhile classChar).isEmpty = true then none
            else some (t.takeWhile classChar)
          else none) = none
        rw [if_neg]
        rintro ⟨ha, -, -⟩
        have h2 := h a (List.mem_cons_self _ _)
        rw [ha] at h2
        exact absurd h2 (by decide)

theorem reSearch_none_of_class (l : Str) (h : ∀ c ∈ l, classChar c = true) :
    reSearchDId l = none := by
  induction l with
  | nil => rfl
  | cons a rest ih =>
    unfold reSearchDId
    rw [matchAt_none_of_class (a :: rest) h]
    exact ih (fun c hc => h c (List.mem_cons_of_mem a hc))

/-- C10: `extract_id` is idempotent: a successful regex match captures only
characters from `[a-zA-Z0-9_-]`, which can never contain `/d/`, so applying
`extract_id` to its own output changes nothing; on a non-matching input the
function is the identity. -/
theorem c10_extract_id_idempotent (s : Str) :
    extract_id (extract_id s) = extract_id s := by
  cases h : reSearchDId s with
  | none => simp only [extract_id, h]
  | some g =>
    have hg : ∀ c ∈ g, classChar c = true := reSearch_sub_class s g h
    simp only [extract_id, h, reSearch_none_of_class g hg]

end HealthApi
